import Mathlib

/-!
Shallow embedding of the ingestion pipeline of `semantic-search-engine`
(`src/data-pipeline/data_ingestion.py`, `database.py`, `config.py`).

Cell values coming out of the CSV data frame are modelled by `PyVal`:
a pandas missing value (`NaN`), a string, an integer, or an opaque value
whose string conversion raises (Python objects can raise in `__str__`;
this is the failure source for the per-row `try/except` of
`parse_amazon_data`).  Fallible Python code is modelled with `Except`.
Decimals are modelled as `Rat`.
-/

/-- A cell value of the data frame. `na` is pandas `NaN`; `bad` is a value
whose coercion to `str`/`float` raises. -/
inductive PyVal where
  | na : PyVal
  | str : String → PyVal
  | int : Int → PyVal
  | bad : PyVal
deriving DecidableEq, Repr

/-- `pd.isna` on a cell value. -/
def PyVal.isna : PyVal → Bool
  | .na => true
  | _ => false

/-- Python `str(v)`. `str(float('nan')) = "nan"`; `str` of the opaque
`bad` value raises. -/
def pyStr : PyVal → Except Unit String
  | .na => .ok "nan"
  | .str s => .ok s
  | .int n => .ok (toString n)
  | .bad => .error ()

/-- Value of a list of decimal digit characters. -/
def digitsVal (cs : List Char) : Nat :=
  cs.foldl (fun a c => a * 10 + (c.toNat - 48)) 0

/-- Python `float` on an unsigned numeric literal: `D+ ('.' D*)?` or
`'.' D+` (exponent and infinity forms of the grammar are not exercised by
this code base and are omitted). -/
def parseUnsignedFloat (cs : List Char) : Option Rat :=
  let ip := cs.takeWhile Char.isDigit
  let rest := cs.dropWhile Char.isDigit
  match rest with
  | [] => if ip.isEmpty then none else some (digitsVal ip)
  | '.' :: fp =>
      if fp.all Char.isDigit && !(ip.isEmpty && fp.isEmpty) then
        some ((digitsVal ip : Rat) + (digitsVal fp : Rat) / (10 : Rat) ^ fp.length)
      else none
  | _ => none

/-- Strip leading and trailing characters satisfying `p` (Python `str.strip`). -/
def stripWhile (p : Char → Bool) (cs : List Char) : List Char :=
  ((cs.dropWhile p).reverse.dropWhile p).reverse

/-- Python `float(s)` on a string: strip whitespace, optional sign, then an
unsigned literal. -/
def pyFloatOfChars (cs : List Char) : Option Rat :=
  match stripWhile Char.isWhitespace cs with
  | [] => none
  | c :: rest =>
      if c = '+' then parseUnsignedFloat rest
      else if c = '-' then (parseUnsignedFloat rest).map (fun q => -q)
      else parseUnsignedFloat (c :: rest)

/-- Python `float(s)` for a string `s`. -/
def parsePyFloat (s : String) : Option Rat :=
  pyFloatOfChars s.data

/-- Python `float(v)` on a cell value: parses strings, converts ints, and
raises on the opaque value.  (`float` of pandas `NaN` yields `NaN`; every
call site guards with `pd.isna` first, so that case is modelled as a
failure.) -/
def pyFloat : PyVal → Option Rat
  | .na => none
  | .str s => parsePyFloat s
  | .int n => some (n : Rat)
  | .bad => none

/-- Python `int(q)` on a float: truncation toward zero. -/
def pyTrunc (q : Rat) : Int :=
  if q < 0 then -⌊-q⌋ else ⌊q⌋

/-- Python `s.strip()` (whitespace at both ends). -/
def pyStrip (s : String) : String :=
  String.mk (stripWhile Char.isWhitespace s.data)

/-- Python `s.replace(c, "")` for a single-character needle: removal of
every occurrence of `c`. -/
def removeChar (c : Char) (s : String) : String :=
  String.mk (s.data.filter (fun x => x ≠ c))

/-- Python `s.replace(c, d)` for single characters `c`, `d`. -/
def swapChar (c d : Char) (s : String) : String :=
  String.mk (s.data.map (fun x => if x = c then d else x))

/-- Python `s.upper()` (the data is ASCII). -/
def pyUpper (s : String) : String :=
  String.mk (s.data.map Char.toUpper)

/-- Python `c in s` for a single character. -/
def hasChar (c : Char) (s : String) : Bool :=
  s.data.contains c

/-- Python `s.split(sep)` for a one-character separator: `""` splits to
`[""]`, and empty fields are kept. -/
def splitOnChar (c : Char) : List Char → List (List Char)
  | [] => [[]]
  | x :: xs =>
      match splitOnChar c xs with
      | [] => [[]]
      | r :: rs => if x = c then [] :: r :: rs else (x :: r) :: rs

/-- Python `s.strip("[]")`: strip leading/trailing `[` and `]`. -/
def stripBrackets (s : String) : String :=
  String.mk (stripWhile (fun c => c = '[' || c = ']') s.data)

/-- Python `s.startswith(c)` for a one-character needle. -/
def pyStartsWith (c : Char) (s : String) : Bool :=
  match s.data with
  | [] => false
  | x :: _ => x = c

/-- Python `s.endswith(c)` for a one-character needle. -/
def pyEndsWith (c : Char) (s : String) : Bool :=
  match s.data.getLast? with
  | some x => x = c
  | none => false

/-- `data_ingestion.py` `_parse_price`: drop every character that is not a
digit or a decimal point, then `float` the remainder; empty, `"nan"` or
unparseable input gives `None`.  (The call site passes `str(price_val)`,
so the argument is a string; `pd.isna` of a string is `False`.) -/
def _parse_price (price_str : String) : Option Rat :=
  if price_str = "" || price_str = "nan" then none
  else
    let price_clean := price_str.data.filter (fun c => c.isDigit || c = '.')
    if price_clean.isEmpty then none
    else pyFloatOfChars price_clean

/-- `data_ingestion.py` `_parse_category`: bracket-delimited values are
stripped of brackets and quote characters and split on commas; other
values are split on `,`, `|` and `>`; tokens are stripped, empty tokens
dropped, and the list truncated to the first 5.  Empty or `"nan"` input
gives `[]`.  (The `except` branch is unreachable: no operation in the
`try` raises on a string.) -/
def _parse_category (category_str : String) : List String :=
  if category_str = "" || category_str = "nan" then []
  else
    let toks : List String :=
      if pyStartsWith '[' category_str && pyEndsWith ']' category_str then
        -- `Char.ofNat 39` is the apostrophe, `Char.ofNat 34` the double quote
        let t := removeChar (Char.ofNat 34) (removeChar (Char.ofNat 39) (stripBrackets category_str))
        ((splitOnChar ',' t.data).map (fun cs => pyStrip (String.mk cs))).filter
          (fun t => t ≠ "")
      else
        let t := swapChar '>' ',' (swapChar '|' ',' category_str)
        ((splitOnChar ',' t.data).map (fun cs => pyStrip (String.mk cs))).filter
          (fun t => t ≠ "")
    toks.take 5

/-- `data_ingestion.py` `_parse_rating`: `None` for missing/`"nan"` input,
else `float` the value and clamp to `[0.0, 5.0]`; a failing `float` is
caught and gives `None`.  `str(rating_val)` on line 152 runs outside the
`try`, so an opaque value raises out of the function. -/
def _parse_rating (rating_val : PyVal) : Except Unit (Option Rat) :=
  if rating_val.isna then .ok none
  else
    (pyStr rating_val).bind fun s =>
      if s = "nan" then .ok none
      else
        match pyFloat rating_val with
        | some rating => .ok (some (max (0 : Rat) (min (5 : Rat) rating)))
        | none => .ok none

/-- `data_ingestion.py` `_parse_review_count`: `0` for missing/`"nan"`;
strip commas; a (case-insensitive) `K`/`M` suffix multiplies by 10^3/10^6;
the result is `int(float(...))`; any parse failure is caught and gives 0.
`str(review_count_val)` on line 164 runs outside the `try`. -/
def _parse_review_count (review_count_val : PyVal) : Except Unit Int :=
  if review_count_val.isna then .ok 0
  else
    (pyStr review_count_val).bind fun s =>
      if s = "nan" then .ok 0
      else
        let count_str := removeChar ',' s
        let upper := pyUpper count_str
        if hasChar 'K' upper then
          match parsePyFloat (removeChar 'K' upper) with
          | some q => .ok (pyTrunc (q * 1000))
          | none => .ok 0
        else if hasChar 'M' upper then
          match parsePyFloat (removeChar 'M' upper) with
          | some q => .ok (pyTrunc (q * 1000000))
          | none => .ok 0
        else
          match parsePyFloat count_str with
          | some q => .ok (pyTrunc q)
          | none => .ok 0

/-- A normalized product record, the dictionary built by
`parse_amazon_data` (lines 68-78). -/
structure Product where
  asin : String
  title : String
  description : String
  brand : String
  category : List String
  price : Option Rat
  image_url : String
  rating : Option Rat
  review_count : Int
deriving DecidableEq, Repr

/-- A raw CSV row as seen by `parse_amazon_data`: each referenced column
is either absent (`none`) or holds a cell value. -/
structure RawRow where
  asin : Option PyVal := none
  input_asin : Option PyVal := none
  title : Option PyVal := none
  description : Option PyVal := none
  brand : Option PyVal := none
  manufacturer : Option PyVal := none
  categories : Option PyVal := none
  final_price : Option PyVal := none
  initial_price : Option PyVal := none
  image_url : Option PyVal := none
  rating : Option PyVal := none
  reviews_count : Option PyVal := none
deriving DecidableEq, Repr

/-- `row[col] if col in row and pd.notna(row[col]) else dflt`. -/
def fieldOr (cell : Option PyVal) (dflt : PyVal) : PyVal :=
  match cell with
  | some v => if v.isna then dflt else v
  | none => dflt

/-- The post-resolution cleanup of lines 80-98 for a string field: the only
reachable reset is the literal `"nan"` string back to the empty-string
default (`pd.isna` is `False` on every string, list, parsed float and int
produced above; `None` price/rating resets to `None`, a no-op). -/
def cleanupStr (s : String) : String :=
  if s = "nan" then "" else s

/-- Lines 56-98 of `parse_amazon_data`: resolve the fields of row number
`i` with their fallback chains, parse the numeric fields, and apply the
cleanup pass.  An exception anywhere in the body surfaces as `.error`
(it is caught by the per-row handler in the loop). -/
def resolveRow (i : Nat) (row : RawRow) : Except Unit Product := do
  let asin_val := fieldOr row.asin (fieldOr row.input_asin (.str ("ASIN_" ++ toString i)))
  let title_val := fieldOr row.title (.str "")
  let description_val := fieldOr row.description (.str "")
  let brand_val := fieldOr row.brand (fieldOr row.manufacturer (.str ""))
  let category_val := fieldOr row.categories (.str "")
  let price_val := fieldOr row.final_price (fieldOr row.initial_price (.str ""))
  let image_url_val := fieldOr row.image_url (.str "")
  let rating_val := fieldOr row.rating (.int 0)
  let review_count_val := fieldOr row.reviews_count (.int 0)
  let asin ← pyStr asin_val
  let title ← pyStr title_val
  let description ← pyStr description_val
  let brand ← pyStr brand_val
  let category := _parse_category (← pyStr category_val)
  let price := _parse_price (← pyStr price_val)
  let image_url ← pyStr image_url_val
  let rating ← _parse_rating rating_val
  let review_count ← _parse_review_count review_count_val
  return {
    asin := cleanupStr asin
    title := cleanupStr title
    description := cleanupStr description
    brand := cleanupStr brand
    category := category
    price := price
    image_url := cleanupStr image_url
    rating := rating
    review_count := review_count
  }

/-- Line 102: `if title_str and title_str != 'nan' and len(title_str.strip()) > 3`. -/
def acceptTitle (t : String) : Bool :=
  t != "" && t != "nan" && (pyStrip t).length > 3

/-- The row loop of `parse_amazon_data` (lines 54-110), starting at row
index `i`: a row that resolves is appended when its title passes the
acceptance filter; a row whose resolution raises is dropped and the loop
continues. -/
def parseRowsAux (i : Nat) : List RawRow → List Product
  | [] => []
  | row :: rest =>
      match resolveRow i row with
      | .ok p =>
          (if acceptTitle p.title then [p] else []) ++ parseRowsAux (i + 1) rest
      | .error _ => parseRowsAux (i + 1) rest

/-- `config.py` `DATA_CONFIG`. -/
structure DataConfig where
  dataset_url : String
  chunk_size : Nat
  max_records : Nat
deriving Repr

def DATA_CONFIG : DataConfig :=
  { dataset_url := "https://raw.githubusercontent.com/luminati-io/eCommerce-dataset-samples/main/amazon-products.csv"
    chunk_size := 1000
    max_records := 50000 }

/-- `config.py` `MODEL_CONFIG`. -/
structure ModelConfig where
  model_name : String
  embedding_dimension : Nat
  batch_size : Nat
deriving Repr

def MODEL_CONFIG : ModelConfig :=
  { model_name := "sentence-transformers/all-MiniLM-L6-v2"
    embedding_dimension := 384
    batch_size := 32 }

/-- `parse_amazon_data` (lines 40-117): truncate the frame to
`min(max_records, len(df))` rows (line 51-52) and run the row loop. -/
def parse_amazon_data (rows : List RawRow) : List Product :=
  parseRowsAux 0 (rows.take (min DATA_CONFIG.max_records rows.length))

/-- A product together with its three embedding vectors, the dictionary
after lines 212-215 of `generate_embeddings`. -/
structure EmbeddedProduct extends Product where
  title_embedding : List Rat
  description_embedding : List Rat
  combined_embedding : List Rat
deriving DecidableEq, Repr

/-- One pass of `for i in range(0, n, batch_size)`: the contiguous slices
`l[i:i+batch_size]`.  The fuel argument bounds the number of iterations;
`chunks` supplies `l.length`, enough whenever `0 < bs`.  (Python raises on
a zero step, so `bs = 0` is outside the modelled behaviour.) -/
def chunksAux (fuel : Nat) (bs : Nat) (l : List α) : List (List α) :=
  match fuel, l with
  | 0, _ => []
  | _, [] => []
  | f + 1, l => l.take bs :: chunksAux f bs (l.drop bs)

/-- The batch slices of `l` for batch size `bs`. -/
def chunks (bs : Nat) (l : List α) : List (List α) :=
  chunksAux l.length bs l

/-- Line 184: `titles = [p['title'] for p in products]`. -/
def titlesOf (products : List Product) : List String :=
  products.map (·.title)

/-- Line 185: the description projection falls back to the title when the
description is empty (Python truthiness). -/
def descriptionsOf (products : List Product) : List String :=
  products.map (fun p => if p.description ≠ "" then p.description else p.title)

/-- Lines 186-187: `f"{title} {description or ''} {brand or ''}".strip()`. -/
def combinedOf (p : Product) : String :=
  pyStrip (p.title ++ " " ++ (if p.description ≠ "" then p.description else "")
    ++ " " ++ (if p.brand ≠ "" then p.brand else ""))

def combinedsOf (products : List Product) : List String :=
  products.map combinedOf

/-- `generate_embeddings` (lines 179-218) over an abstract embedding
function `encode` (`self.model.encode`): build the three projections,
encode them batch by batch (lines 196-209; the per-batch results are
concatenated, which is the `extend` accumulation), and attach the vectors
positionally (lines 212-215).  Indexing `title_embeddings[i]` raises when
the accumulated list is shorter than `products`; that `IndexError` is the
`.error` case. -/
def generate_embeddings (encode : List String → List (List Rat))
    (batch_size : Nat) (products : List Product) :
    Except Unit (List EmbeddedProduct) :=
  let title_embeddings := ((chunks batch_size (titlesOf products)).map encode).flatten
  let description_embeddings := ((chunks batch_size (descriptionsOf products)).map encode).flatten
  let combined_embeddings := ((chunks batch_size (combinedsOf products)).map encode).flatten
  if products.length ≤ title_embeddings.length ∧
      products.length ≤ description_embeddings.length ∧
      products.length ≤ combined_embeddings.length then
    .ok (products.enum.map (fun ip =>
      { toProduct := ip.2
        title_embedding := title_embeddings.getD ip.1 []
        description_embedding := description_embeddings.getD ip.1 []
        combined_embedding := combined_embeddings.getD ip.1 [] }))
  else .error ()

/-- The argument lists of the `model.encode` calls issued by
`generate_embeddings`, in issue order: for each batch, the title slice,
then the description slice, then the combined slice (lines 203-205). -/
def embedCalls (batch_size : Nat) (products : List Product) : List (List String) :=
  (((chunks batch_size (titlesOf products)).zip
      ((chunks batch_size (descriptionsOf products)).zip
        (chunks batch_size (combinedsOf products)))).map
    (fun x => [x.1, x.2.1, x.2.2])).flatten

/-- The durable `products` table, keyed by the unique `asin` column.
Internal columns that cannot influence the modelled claims (the serial
`id` and the two timestamps) are not represented. -/
def Store : Type := String → Option EmbeddedProduct

/-- One row of the `INSERT ... ON CONFLICT (asin) DO UPDATE` of
`insert_products` (lines 224-243): a row with a fresh `asin` is inserted
and an existing `asin` has every column overwritten. -/
def upsertOne (s : Store) (p : EmbeddedProduct) : Store :=
  fun k => if k = p.asin then some p else s k

/-- The `vector(384)` column constraint of `database.py` (lines 41-43):
every persisted vector must have the configured dimensionality. -/
def hasDims (p : EmbeddedProduct) : Bool :=
  p.title_embedding.length == MODEL_CONFIG.embedding_dimension &&
  p.description_embedding.length == MODEL_CONFIG.embedding_dimension &&
  p.combined_embedding.length == MODEL_CONFIG.embedding_dimension

/-- `insert_products` (lines 220-277): a single transaction writes all
rows and commits at the end; a constraint violation (a vector of the
wrong dimensionality) raises, the commit never runs and the transaction
rolls back, so the store is unchanged and the exception is re-raised
(`.error`). -/
def insert_products (s : Store) (products : List EmbeddedProduct) :
    Except Unit Store :=
  if products.all hasDims then .ok (products.foldl upsertOne s)
  else .error ()

/-- The typed fatal outcomes of `run_pipeline`. -/
inductive PipelineError where
  | connectionFailed
  | downloadFailed
  | noValidProducts
  | embeddingFailed
  | insertFailed
deriving DecidableEq, Repr

/-- The external collaborators of one run: the connectivity probe result,
the download result, the downloaded CSV rows, and the embedding model. -/
structure PipelineEnv where
  connOk : Bool
  downloadOk : Bool
  rows : List RawRow
  encode : List String → List (List Rat)

/-- The observable side-effect state of a run. -/
structure PipelineState where
  store : Store
  tablesCreated : Bool
  downloaded : Bool

/-- `run_pipeline` (lines 279-308): connectivity gate, schema creation,
download, parse, embed, insert — strictly in that order, aborting at the
first failure.  The returned pair is the final side-effect state and
either the processed-record count or the fatal error. -/
def run_pipeline (env : PipelineEnv) (st : PipelineState) :
    PipelineState × Except PipelineError Nat :=
  if !env.connOk then (st, .error .connectionFailed)
  else
    let st := { st with tablesCreated := true }
    if !env.downloadOk then (st, .error .downloadFailed)
    else
      let st := { st with downloaded := true }
      let products := parse_amazon_data env.rows
      if products.isEmpty then (st, .error .noValidProducts)
      else
        match generate_embeddings env.encode MODEL_CONFIG.batch_size products with
        | .error _ => (st, .error .embeddingFailed)
        | .ok products_with_embeddings =>
            match insert_products st.store products_with_embeddings with
            | .error _ => (st, .error .insertFailed)
            | .ok s1 => ({ st with store := s1 }, .ok products.length)

/-!
Section: Concrete artifacts used by witnesses and counterexamples
-/

/-- A raw row whose `rating` column is absent. -/
def rowNoRating : RawRow :=
  { asin := some (.str "B001"), title := some (.str "Wireless Mouse") }

/-- The record `resolveRow` produces for `rowNoRating`. -/
def prodNoRating : Product :=
  { asin := "B001", title := "Wireless Mouse", description := "", brand := ""
    category := [], price := none, image_url := "", rating := some 0
    review_count := 0 }

/-- A raw row whose resolution raises (`str` of its title cell raises). -/
def badRow : RawRow := { title := some .bad }

/-- An embedded record with vectors of the configured dimensionality. -/
def embProd1 : EmbeddedProduct :=
  { toProduct := prodNoRating
    title_embedding := List.replicate 384 0
    description_embedding := List.replicate 384 0
    combined_embedding := List.replicate 384 0 }

/-- The empty store. -/
def emptyStore : Store := fun _ => none

/-- The store after upserting the batch `[embProd1]` into the empty store. -/
def store1 : Store := List.foldl upsertOne emptyStore [embProd1]


/-- A deterministic stand-in embedding function: one 1-dimensional vector
per input text. -/
def encodeConst : List String → List (List Rat) :=
  fun xs => xs.map (fun _ => [0])

/-- Three records to batch with `batch_size = 2`. -/
def demoProducts : List Product := [prodNoRating, prodNoRating, prodNoRating]

/-- The initial pipeline state: empty store, no side effects yet. -/
def initState : PipelineState :=
  { store := emptyStore, tablesCreated := false, downloaded := false }

/-- An environment whose connectivity probe fails. -/
def envNoConn : PipelineEnv :=
  { connOk := false, downloadOk := true, rows := [rowNoRating], encode := encodeConst }

/-- An environment whose dataset normalizes to zero valid records. -/
def envNoRows : PipelineEnv :=
  { connOk := true, downloadOk := true, rows := [], encode := encodeConst }

/-- An environment whose embedding function returns vectors of dimension
1 instead of the configured 384. -/
def envBadDims : PipelineEnv :=
  { connOk := true, downloadOk := true, rows := [rowNoRating], encode := encodeConst }


/-!
Section: Lemmas about the numeric parsers
-/

theorem parseUnsignedFloat_nonneg (cs : List Char) (q : Rat)
    (h : parseUnsignedFloat cs = some q) : 0 ≤ q := by
  simp only [parseUnsignedFloat] at h
  split at h
  · split at h
    · exact absurd h (by simp)
    · cases h; positivity
  · split at h
    · cases h
      have h10 : (0 : Rat) ≤ 10 := by norm_num
      positivity
    · exact absurd h (by simp)
  · exact absurd h (by simp)

theorem mem_stripWhile {c : Char} {P : Char → Bool} {cs : List Char}
    (h : c ∈ stripWhile P cs) : c ∈ cs := by
  unfold stripWhile at h
  rw [List.mem_reverse] at h
  have h1 := (List.dropWhile_sublist P).mem h
  rw [List.mem_reverse] at h1
  exact (List.dropWhile_sublist P).mem h1

theorem pyFloatOfChars_nonneg (cs : List Char) (q : Rat)
    (hm : (Char.ofNat 45) ∉ cs) (h : pyFloatOfChars cs = some q) : 0 ≤ q := by
  unfold pyFloatOfChars at h
  split at h
  · exact absurd h (by simp)
  · rename_i c rest heq
    split at h
    · exact parseUnsignedFloat_nonneg _ _ h
    · split at h
      · rename_i hplus hminus
        exfalso
        apply hm
        apply mem_stripWhile (P := Char.isWhitespace)
        rw [heq, hminus]
        exact List.mem_cons_self _ _
      · exact parseUnsignedFloat_nonneg _ _ h

/-- C4: for every price string, parsing strips all characters that are not
digits or a decimal point and parses the remainder as a decimal, so
`"$1,299.99"` parses to `1299.99`; an empty, absent, or non-numeric price
yields `None` (never 0), and every parsed price is non-negative. -/
theorem price_parsing :
    _parse_price "$1,299.99" = some (129999 / 100 : Rat) ∧
    _parse_price "" = none ∧
    _parse_price "nan" = none ∧
    _parse_price "abc" = none ∧
    ∀ s q, _parse_price s = some q → 0 ≤ q := by
  refine ⟨?_, by decide, by decide, by decide, ?_⟩
  · have h : _parse_price "$1,299.99"
        = some ((1299 : Rat) + (99 : Rat) / (10 : Rat) ^ 2) := rfl
    rw [h]; norm_num
  · intro s q h
    simp only [_parse_price] at h
    split at h
    · exact absurd h (by simp)
    · split at h
      · exact absurd h (by simp)
      · refine pyFloatOfChars_nonneg _ _ ?_ h
        intro hmem
        rw [List.mem_filter] at hmem
        exact absurd hmem.2 (by decide)

/-- C4 witness: the non-negativity clause applied to the concretely
parsed `"$1,299.99"`. -/
theorem price_parsing_witness : 0 ≤ (129999 / 100 : Rat) :=
  price_parsing.2.2.2.2 "$1,299.99" _ price_parsing.1

/-- C7: for every review-count input, parsing strips thousands separators
and applies case-insensitive suffix multipliers: `"1.2K"` parses to 1200,
`"2M"` to 2000000, `"1,234"` to 1234, and an absent (`NaN`, or the `0`
the field resolution substitutes) or unparseable value parses to 0. -/
theorem review_count_parsing :
    _parse_review_count (.str "1.2K") = .ok 1200 ∧
    _parse_review_count (.str "2M") = .ok 2000000 ∧
    _parse_review_count (.str "1,234") = .ok 1234 ∧
    _parse_review_count (.str "1.2k") = .ok 1200 ∧
    _parse_review_count .na = .ok 0 ∧
    _parse_review_count (.int 0) = .ok 0 ∧
    _parse_review_count (.str "abc") = .ok 0 := by
  refine ⟨?_, ?_, ?_, ?_, rfl, rfl, rfl⟩
  · have h : _parse_review_count (.str "1.2K")
        = .ok (pyTrunc (((1 : Rat) + (2 : Rat) / (10 : Rat) ^ 1) * 1000)) := rfl
    rw [h]; norm_num [pyTrunc]
  · have h : _parse_review_count (.str "2M")
        = .ok (pyTrunc ((2 : Rat) * 1000000)) := rfl
    rw [h]; norm_num [pyTrunc]
  · have h : _parse_review_count (.str "1,234")
        = .ok (pyTrunc (1234 : Rat)) := rfl
    rw [h]; norm_num [pyTrunc]
  · have h : _parse_review_count (.str "1.2k")
        = .ok (pyTrunc (((1 : Rat) + (2 : Rat) / (10 : Rat) ^ 1) * 1000)) := rfl
    rw [h]; norm_num [pyTrunc]

/-- C8: category parsing splits bracket-delimited values on commas after
stripping brackets and quotes, otherwise splits on comma, pipe or `>`;
tokens are trimmed and empty tokens dropped; the result always has length
at most 5 (a 7-element comma list truncates to the first 5), and an
absent or unparseable value yields the empty list. -/
theorem category_parsing :
    (∀ s, (_parse_category s).length ≤ 5) ∧
    _parse_category "Electronics > Audio > Headphones"
      = ["Electronics", "Audio", "Headphones"] ∧
    _parse_category "a,b,c,d,e,f,g" = ["a", "b", "c", "d", "e"] ∧
    _parse_category "['Electronics', 'Audio']" = ["Electronics", "Audio"] ∧
    _parse_category "a|b|c" = ["a", "b", "c"] ∧
    _parse_category "" = [] ∧
    _parse_category "nan" = [] := by
  refine ⟨?_, by decide, by decide, by decide, by decide, by decide, by decide⟩
  intro s
  simp only [_parse_category]
  split
  · simp
  · simp only [List.length_take]
    omega

/-!
Section: Rating lemmas (C1)
-/

theorem _parse_rating_range (v : PyVal) (r : Option Rat)
    (h : _parse_rating v = .ok r) :
    r = none ∨ ∃ q, r = some q ∧ 0 ≤ q ∧ q ≤ 5 := by
  unfold _parse_rating at h
  split at h
  · cases h; exact Or.inl rfl
  · cases hs : pyStr v with
    | error e => rw [hs] at h; exact absurd h (by simp [Except.bind])
    | ok s =>
      rw [hs] at h
      simp only [Except.bind] at h
      split at h
      · cases h; exact Or.inl rfl
      · split at h
        · cases h
          exact Or.inr ⟨_, rfl, le_max_left _ _,
            max_le (by norm_num) (min_le_left _ _)⟩
        · cases h; exact Or.inl rfl

theorem resolveRow_fields (i : Nat) (row : RawRow) (p : Product)
    (h : resolveRow i row = .ok p) :
    _parse_rating (fieldOr row.rating (.int 0)) = .ok p.rating ∧
    _parse_review_count (fieldOr row.reviews_count (.int 0)) = .ok p.review_count := by
  unfold resolveRow at h
  simp only [bind, Except.bind, pure, Except.pure] at h
  repeat' split at h
  all_goals cases h
  all_goals exact ⟨by simp_all, by simp_all⟩

/-- C1 (amended): for every raw row, the normalized rating is either
`None` or a decimal in `[0.0, 5.0]`; a rating input of `7.5` clamps to
`5.0` and `-1` clamps to `0.0`; an unparseable rating yields `None`; but
an absent rating is resolved to the numeric fallback `0` (line 65) and
normalizes to `0.0`, not `None` — absence of a rating is conflated with a
zero rating. -/
theorem rating_normalization :
    (∀ i row p, resolveRow i row = .ok p →
      (p.rating = none ∨ ∃ q, p.rating = some q ∧ 0 ≤ q ∧ q ≤ 5) ∧
      (row.rating = none → p.rating = some 0)) ∧
    _parse_rating (.str "7.5") = .ok (some 5) ∧
    _parse_rating (.str "-1") = .ok (some 0) ∧
    _parse_rating (.str "abc") = .ok none := by
  refine ⟨?_, ?_, ?_, rfl⟩
  · intro i row p h
    have hf := (resolveRow_fields i row p h).1
    refine ⟨_parse_rating_range _ _ hf, ?_⟩
    intro habs
    rw [habs] at hf
    have h0 : _parse_rating (fieldOr none (.int 0)) = .ok (some 0) := rfl
    rw [h0] at hf
    exact (Except.ok.inj hf).symm
  · have h : _parse_rating (.str "7.5")
        = .ok (some (max (0 : Rat) (min 5 ((7 : Rat) + (5 : Rat) / (10 : Rat) ^ 1)))) := rfl
    rw [h]; norm_num
  · have h : _parse_rating (.str "-1")
        = .ok (some (max (0 : Rat) (min 5 (-(1 : Rat))))) := rfl
    rw [h]; norm_num

/-- C1 witness: the universal clause applied to the concrete row with an
absent rating column. -/
theorem rating_normalization_witness :
    ((prodNoRating.rating = none ∨
        ∃ q, prodNoRating.rating = some q ∧ 0 ≤ q ∧ q ≤ 5) ∧
      (rowNoRating.rating = none → prodNoRating.rating = some 0)) :=
  rating_normalization.1 0 rowNoRating prodNoRating rfl

/-- C1 counterexample: the row `rowNoRating` has no rating column, yet
its normalized rating is `0.0`, not `None` — refuting "an absent …
rating yields `None`, never 0". -/
theorem rating_absent_counterexample :
    (resolveRow 0 rowNoRating).map Product.rating = .ok (some 0) ∧
    (resolveRow 0 rowNoRating).map Product.rating ≠ .ok none := by
  constructor
  · rfl
  · rw [show (resolveRow 0 rowNoRating).map Product.rating = .ok (some 0) from rfl]
    simp
/-!
Section: Lemmas about the row loop (C3, C10)
-/

theorem acceptTitle_iff (t : String) :
    acceptTitle t = true ↔ 3 < (pyStrip t).length := by
  simp only [acceptTitle, Bool.and_eq_true, bne_iff_ne, ne_eq, decide_eq_true_eq]
  constructor
  · rintro ⟨⟨-, -⟩, h3⟩
    exact h3
  · intro h3
    refine ⟨⟨?_, ?_⟩, h3⟩
    · rintro rfl; revert h3; decide
    · rintro rfl; revert h3; decide

theorem parseRowsAux_append (i : Nat) (l1 l2 : List RawRow) :
    parseRowsAux i (l1 ++ l2)
      = parseRowsAux i l1 ++ parseRowsAux (i + l1.length) l2 := by
  induction l1 generalizing i with
  | nil => simp [parseRowsAux]
  | cons row rest ih =>
    simp only [List.cons_append, parseRowsAux, List.length_cons, List.append_eq]
    rw [show i + (rest.length + 1) = (i + 1) + rest.length by omega]
    split
    · rw [ih (i + 1), List.append_assoc]
    · rw [ih (i + 1)]

theorem parseRowsAux_length (i : Nat) (rows : List RawRow) :
    (parseRowsAux i rows).length ≤ rows.length := by
  induction rows generalizing i with
  | nil => simp [parseRowsAux]
  | cons row rest ih =>
    have hrec := ih (i + 1)
    simp only [parseRowsAux, List.length_cons]
    split
    · split
      · simp only [List.singleton_append, List.length_cons]
        omega
      · simp only [List.nil_append]
        omega
    · omega

theorem mem_parseRowsAux (i : Nat) (rows : List RawRow) (p : Product) :
    p ∈ parseRowsAux i rows ↔
      ∃ j, ∃ hj : j < rows.length,
        resolveRow (i + j) rows[j] = .ok p ∧ 3 < (pyStrip p.title).length := by
  induction rows generalizing i with
  | nil => simp [parseRowsAux]
  | cons row rest ih =>
    simp only [parseRowsAux]
    split
    · next q heq =>
      by_cases ha : acceptTitle q.title
      · rw [if_pos ha]
        simp only [List.singleton_append, List.mem_cons]
        rw [ih (i + 1)]
        constructor
        · rintro (rfl | ⟨j, hj, hres, hl⟩)
          · exact ⟨0, Nat.succ_pos _, by simpa using heq,
              (acceptTitle_iff _).mp ha⟩
          · exact ⟨j + 1, Nat.succ_lt_succ hj,
              by rw [show i + (j + 1) = i + 1 + j by omega]; simpa using hres, hl⟩
        · rintro ⟨j, hj, hres, hl⟩
          cases j with
          | zero =>
            simp only [Nat.add_zero, List.getElem_cons_zero] at hres
            rw [heq] at hres
            exact Or.inl (Except.ok.inj hres).symm
          | succ j' =>
            exact Or.inr ⟨j', Nat.lt_of_succ_lt_succ hj,
              by rw [show i + 1 + j' = i + (j' + 1) by omega]; simpa using hres, hl⟩
      · rw [if_neg ha]
        simp only [List.nil_append]
        rw [ih (i + 1)]
        constructor
        · rintro ⟨j, hj, hres, hl⟩
          exact ⟨j + 1, Nat.succ_lt_succ hj,
            by rw [show i + (j + 1) = i + 1 + j by omega]; simpa using hres, hl⟩
        · rintro ⟨j, hj, hres, hl⟩
          cases j with
          | zero =>
            simp only [Nat.add_zero, List.getElem_cons_zero] at hres
            rw [heq] at hres
            have hq : q = p := Except.ok.inj hres
            subst hq
            exact absurd ((acceptTitle_iff _).mpr hl) ha
          | succ j' =>
            exact ⟨j', Nat.lt_of_succ_lt_succ hj,
              by rw [show i + 1 + j' = i + (j' + 1) by omega]; simpa using hres, hl⟩
    · next e heq =>
      rw [ih (i + 1)]
      constructor
      · rintro ⟨j, hj, hres, hl⟩
        exact ⟨j + 1, Nat.succ_lt_succ hj,
          by rw [show i + (j + 1) = i + 1 + j by omega]; simpa using hres, hl⟩
      · rintro ⟨j, hj, hres, hl⟩
        cases j with
        | zero =>
          simp only [Nat.add_zero, List.getElem_cons_zero] at hres
          rw [heq] at hres
          cases hres
        | succ j' =>
          exact ⟨j', Nat.lt_of_succ_lt_succ hj,
            by rw [show i + 1 + j' = i + (j' + 1) by omega]; simpa using hres, hl⟩

/-- C3: a row's record is included in the normalization output iff its
normalized title, after trimming, has length > 3; and a row whose field
resolution raises is dropped for that row only — the rows before and
after it are still processed (with their original row indices), so
normalization never aborts the batch for one bad row. -/
theorem normalization_filter :
    (∀ i rows p, p ∈ parseRowsAux i rows ↔
        ∃ j, ∃ hj : j < rows.length,
          resolveRow (i + j) rows[j] = .ok p ∧
          3 < (pyStrip p.title).length) ∧
    (∀ i l1 r l2 e, resolveRow (i + l1.length) r = .error e →
        parseRowsAux i (l1 ++ r :: l2)
          = parseRowsAux i l1 ++ parseRowsAux (i + l1.length + 1) l2) := by
  refine ⟨mem_parseRowsAux, ?_⟩
  intro i l1 r l2 e herr
  rw [parseRowsAux_append i l1 (r :: l2)]
  simp only [parseRowsAux, herr]

/-- C3 witness: a batch of a good row, a raising row, and another good
row produces the records of both good rows. -/
theorem normalization_filter_witness :
    parseRowsAux 0 ([rowNoRating] ++ badRow :: [rowNoRating])
      = parseRowsAux 0 [rowNoRating] ++ parseRowsAux 2 [rowNoRating] :=
  normalization_filter.2 0 [rowNoRating] badRow [rowNoRating] () rfl

/-- C10: normalization considers at most the first `max_records = 50000`
rows of the input file — the frame is truncated to
`min(max_records, len(df))` rows, which equals the 50000-prefix — and the
returned product list always has length at most 50000. -/
theorem max_records_cap :
    (∀ rows, parse_amazon_data rows
        = parseRowsAux 0 (rows.take DATA_CONFIG.max_records)) ∧
    (∀ rows, (parse_amazon_data rows).length ≤ DATA_CONFIG.max_records) ∧
    DATA_CONFIG.max_records = 50000 := by
  have htake : ∀ rows : List RawRow,
      rows.take (min DATA_CONFIG.max_records rows.length)
        = rows.take DATA_CONFIG.max_records := by
    intro rows
    rcases Nat.le_total DATA_CONFIG.max_records rows.length with hle | hle
    · rw [Nat.min_eq_left hle]
    · rw [Nat.min_eq_right hle, List.take_length,
        List.take_of_length_le hle]
  refine ⟨?_, ?_, rfl⟩
  · intro rows
    unfold parse_amazon_data
    rw [htake]
  · intro rows
    unfold parse_amazon_data
    calc (parseRowsAux 0 (rows.take (min DATA_CONFIG.max_records rows.length))).length
        ≤ (rows.take (min DATA_CONFIG.max_records rows.length)).length :=
          parseRowsAux_length _ _
      _ ≤ DATA_CONFIG.max_records := by
          rw [List.length_take]; omega
/-!
Section: Store lemmas (C2)
-/

theorem foldl_upsert_lookup (b : List EmbeddedProduct) (s : Store) (k : String) :
    (b.foldl upsertOne s) k =
      match b.reverse.find? (fun q => q.asin == k) with
      | some q => some q
      | none => s k := by
  induction b generalizing s with
  | nil => simp [List.find?]
  | cons p bs ih =>
    simp only [List.foldl_cons, List.reverse_cons]
    rw [ih, List.find?_append]
    cases hf : bs.reverse.find? (fun q => q.asin == k) with
    | some q => rfl
    | none =>
      show (upsertOne s p) k = _
      by_cases hk : p.asin = k
      · subst hk
        simp [List.find?, upsertOne]
      · have hb : (p.asin == k) = false := by simp [hk]
        have hne : ¬(k = p.asin) := fun h => hk h.symm
        simp [List.find?, upsertOne, hb, hne]

/-- C2: running `upsertBatch` twice with an identical batch leaves the
store in the same final state as running it once; a row whose `asin`
already exists is fully overwritten (the last occurrence in the batch
wins) and a row with a new `asin` is inserted, so re-applying the same
batch is idempotent. -/
theorem upsertBatch_idempotent :
    ∀ s b s1, insert_products s b = .ok s1 →
      insert_products s1 b = .ok s1 ∧
      ∀ k, s1 k = (match b.reverse.find? (fun q => q.asin == k) with
        | some q => some q
        | none => s k) := by
  intro s b s1 h
  unfold insert_products at h ⊢
  split at h
  · next hall =>
    cases h
    rw [if_pos hall]
    constructor
    · congr 1
      funext k
      rw [foldl_upsert_lookup, foldl_upsert_lookup]
      cases hf : b.reverse.find? (fun q => q.asin == k) with
      | some q => rfl
      | none => rfl
    · intro k
      exact foldl_upsert_lookup b s k
  · cases h

set_option maxRecDepth 10000 in
/-- C2 witness: the idempotence theorem applied to the concrete batch
`[embProd1]` against the empty store. -/
theorem upsertBatch_idempotent_witness :
    insert_products store1 [embProd1] = .ok store1 ∧
    ∀ k, store1 k = (match [embProd1].reverse.find? (fun q => q.asin == k) with
      | some q => some q
      | none => emptyStore k) :=
  upsertBatch_idempotent emptyStore [embProd1] store1 rfl
/-!
Section: Batching lemmas (C5, C6)
-/

theorem chunksAux_flatten {α : Type} (bs : Nat) (hbs : 0 < bs) :
    ∀ (f : Nat) (l : List α), l.length ≤ f → (chunksAux f bs l).flatten = l := by
  intro f
  induction f with
  | zero =>
    intro l hl
    rw [List.eq_nil_of_length_eq_zero (Nat.le_zero.mp hl)]
    rfl
  | succ f ih =>
    intro l hl
    cases l with
    | nil => rfl
    | cons x xs =>
      simp only [chunksAux, List.flatten_cons]
      have hdrop : (List.drop bs (x :: xs)).length ≤ f := by
        rw [List.length_drop]
        simp only [List.length_cons] at hl ⊢
        omega
      rw [ih (List.drop bs (x :: xs)) hdrop]
      exact List.take_append_drop bs (x :: xs)

theorem chunks_flatten {α : Type} (bs : Nat) (hbs : 0 < bs) (l : List α) :
    (chunks bs l).flatten = l :=
  chunksAux_flatten bs hbs l.length l le_rfl

theorem chunksAux_mem_length {α : Type} (bs f : Nat) (l : List α) (c : List α)
    (hc : c ∈ chunksAux f bs l) : c.length ≤ bs := by
  induction f generalizing l with
  | zero => simp [chunksAux] at hc
  | succ f ih =>
    cases l with
    | nil => simp [chunksAux] at hc
    | cons x xs =>
      simp only [chunksAux, List.mem_cons] at hc
      rcases hc with rfl | hc
      · simp only [List.length_take]
        omega
      · exact ih _ hc

theorem chunksAux_length_congr {α β : Type} (bs f : Nat) :
    ∀ (l1 : List α) (l2 : List β), l1.length = l2.length →
      (chunksAux f bs l1).length = (chunksAux f bs l2).length := by
  induction f with
  | zero => intro l1 l2 h; cases l1 <;> cases l2 <;> rfl
  | succ f ih =>
    intro l1 l2 h
    cases l1 with
    | nil =>
      cases l2 with
      | nil => rfl
      | cons y ys => simp at h
    | cons x xs =>
      cases l2 with
      | nil => simp at h
      | cons y ys =>
        have hd : (List.drop bs (x :: xs)).length = (List.drop bs (y :: ys)).length := by
          simp only [List.length_drop]
          simp only [List.length_cons] at h ⊢
          omega
        simp only [chunksAux, List.length_cons, ih _ _ hd]

theorem chunks_length_congr {α β : Type} (bs : Nat) (l1 : List α) (l2 : List β)
    (h : l1.length = l2.length) :
    (chunks bs l1).length = (chunks bs l2).length := by
  unfold chunks
  rw [show l1.length = l2.length from h]
  exact chunksAux_length_congr bs _ l1 l2 h

theorem flatten_map_length_of (encode : List String → List (List Rat))
    (hlen : ∀ xs, (encode xs).length = xs.length) :
    ∀ L : List (List String), ((L.map encode).flatten).length = L.flatten.length := by
  intro L
  induction L with
  | nil => rfl
  | cons c L ih =>
    simp only [List.map_cons, List.flatten_cons, List.length_append, hlen, ih]

theorem emb_len (encode : List String → List (List Rat))
    (hlen : ∀ xs, (encode xs).length = xs.length) {bs : Nat} (hbs : 0 < bs)
    (l : List String) :
    (((chunks bs l).map encode).flatten).length = l.length := by
  rw [flatten_map_length_of encode hlen, chunks_flatten bs hbs]

theorem flatten_map_triple_length {α β : Type} (F : α → List β)
    (h3 : ∀ x, (F x).length = 3) :
    ∀ L : List α, ((L.map F).flatten).length = 3 * L.length := by
  intro L
  induction L with
  | nil => rfl
  | cons x L ih =>
    simp only [List.map_cons, List.flatten_cons, List.length_append, h3, ih,
      List.length_cons]
    omega

theorem generate_embeddings_ok (encode : List String → List (List Rat))
    (bs : Nat) (ps : List Product) (hbs : 0 < bs)
    (hlen : ∀ xs, (encode xs).length = xs.length) :
    generate_embeddings encode bs ps = .ok (ps.enum.map (fun ip =>
      { toProduct := ip.2
        title_embedding :=
          (((chunks bs (titlesOf ps)).map encode).flatten).getD ip.1 []
        description_embedding :=
          (((chunks bs (descriptionsOf ps)).map encode).flatten).getD ip.1 []
        combined_embedding :=
          (((chunks bs (combinedsOf ps)).map encode).flatten).getD ip.1 [] })) := by
  unfold generate_embeddings
  rw [if_pos]
  refine ⟨?_, ?_, ?_⟩
  · rw [emb_len encode hlen hbs]
    simp [titlesOf]
  · rw [emb_len encode hlen hbs]
    simp [descriptionsOf]
  · rw [emb_len encode hlen hbs]
    simp [combinedsOf]

/-- C6: for every input sequence and every positive batch size, the
embedding stage partitions the records into contiguous batches of at most
`batchSize` in input order (their concatenation is the original
projection list), issues exactly three vectorization calls per batch (one
per projection, each call carrying at most `batchSize` texts — never one
call per record), and emits exactly one embedded record per input record
in the same order; the description projection falls back to the title
when the description is empty. -/
theorem embedding_batching :
    ∀ (encode : List String → List (List Rat)) (bs : Nat) (ps : List Product),
      0 < bs → (∀ xs, (encode xs).length = xs.length) →
      ∃ out, generate_embeddings encode bs ps = .ok out ∧
        out.map (fun e => e.toProduct) = ps ∧
        (chunks bs (titlesOf ps)).flatten = titlesOf ps ∧
        (∀ c ∈ chunks bs (titlesOf ps), c.length ≤ bs) ∧
        (embedCalls bs ps).length = 3 * (chunks bs (titlesOf ps)).length ∧
        (∀ xs ∈ embedCalls bs ps, xs.length ≤ bs) ∧
        descriptionsOf ps = ps.map (fun p =>
          if p.description = "" then p.title else p.description) := by
  intro encode bs ps hbs hlen
  refine ⟨_, generate_embeddings_ok encode bs ps hbs hlen, ?_, ?_, ?_, ?_, ?_, ?_⟩
  · rw [List.map_map]
    rw [show ((fun e : EmbeddedProduct => e.toProduct) ∘ fun ip : Nat × Product =>
        ({ toProduct := ip.2
           title_embedding :=
             (((chunks bs (titlesOf ps)).map encode).flatten).getD ip.1 []
           description_embedding :=
             (((chunks bs (descriptionsOf ps)).map encode).flatten).getD ip.1 []
           combined_embedding :=
             (((chunks bs (combinedsOf ps)).map encode).flatten).getD ip.1 [] }
          : EmbeddedProduct)) = Prod.snd from funext fun ip => rfl]
    exact List.enum_map_snd ps
  · exact chunks_flatten bs hbs (titlesOf ps)
  · intro c hc
    exact chunksAux_mem_length bs _ _ c hc
  · unfold embedCalls
    rw [flatten_map_triple_length
      (fun x : List String × (List String × List String) => [x.1, x.2.1, x.2.2])
      (fun x => rfl)]
    have h1 : (descriptionsOf ps).length = (titlesOf ps).length := by
      simp [titlesOf, descriptionsOf]
    have h2 : (combinedsOf ps).length = (titlesOf ps).length := by
      simp [titlesOf, combinedsOf]
    rw [List.length_zip, List.length_zip]
    rw [chunks_length_congr bs (descriptionsOf ps) (titlesOf ps) h1,
      chunks_length_congr bs (combinedsOf ps) (titlesOf ps) h2]
    simp [Nat.min_self]
  · intro xs hxs
    unfold embedCalls at hxs
    rw [List.mem_flatten] at hxs
    obtain ⟨l, hl, hxl⟩ := hxs
    rw [List.mem_map] at hl
    obtain ⟨trip, htrip, rfl⟩ := hl
    have h1 := (List.of_mem_zip htrip).1
    have h2 := (List.of_mem_zip (List.of_mem_zip htrip).2).1
    have h3 := (List.of_mem_zip (List.of_mem_zip htrip).2).2
    simp only [List.mem_cons, List.mem_singleton] at hxl
    rcases hxl with rfl | rfl | rfl | hfalse
    · exact chunksAux_mem_length bs _ _ _ h1
    · exact chunksAux_mem_length bs _ _ _ h2
    · exact chunksAux_mem_length bs _ _ _ h3
    · cases hfalse
  · unfold descriptionsOf
    refine List.map_congr_left ?_
    intro p _
    by_cases h : p.description = "" <;> simp [h]
/-- C6 witness: the batching theorem applied to a concrete three-record
batch with batch size 2 and a length-preserving embedding function. -/
theorem embedding_batching_witness :
    ∃ out, generate_embeddings encodeConst 2 demoProducts = .ok out ∧
      out.map (fun e => e.toProduct) = demoProducts ∧
      (chunks 2 (titlesOf demoProducts)).flatten = titlesOf demoProducts ∧
      (∀ c ∈ chunks 2 (titlesOf demoProducts), c.length ≤ 2) ∧
      (embedCalls 2 demoProducts).length
        = 3 * (chunks 2 (titlesOf demoProducts)).length ∧
      (∀ xs ∈ embedCalls 2 demoProducts, xs.length ≤ 2) ∧
      descriptionsOf demoProducts = demoProducts.map (fun p =>
        if p.description = "" then p.title else p.description) :=
  embedding_batching encodeConst 2 demoProducts (by decide)
    (fun xs => by simp [encodeConst])

theorem bad_vector_not_all (encode : List String → List (List Rat))
    (hlen : ∀ xs, (encode xs).length = xs.length) (bs : Nat) (hbs : 0 < bs)
    (ps : List Product) (xs : List String)
    (hxs : xs ∈ embedCalls bs ps) (v : List Rat) (hv : v ∈ encode xs)
    (hvlen : v.length ≠ MODEL_CONFIG.embedding_dimension) :
    (ps.enum.map (fun ip =>
      ({ toProduct := ip.2
         title_embedding :=
           (((chunks bs (titlesOf ps)).map encode).flatten).getD ip.1 []
         description_embedding :=
           (((chunks bs (descriptionsOf ps)).map encode).flatten).getD ip.1 []
         combined_embedding :=
           (((chunks bs (combinedsOf ps)).map encode).flatten).getD ip.1 [] }
        : EmbeddedProduct))).all hasDims = false := by
  unfold embedCalls at hxs
  rw [List.mem_flatten] at hxs
  obtain ⟨l, hl, hxl⟩ := hxs
  rw [List.mem_map] at hl
  obtain ⟨trip, htrip, rfl⟩ := hl
  have ht1 := (List.of_mem_zip htrip).1
  have ht2 := (List.of_mem_zip (List.of_mem_zip htrip).2).1
  have ht3 := (List.of_mem_zip (List.of_mem_zip htrip).2).2
  by_contra hall
  rw [Bool.not_eq_false] at hall
  simp only [List.mem_cons, List.mem_singleton] at hxl
  have hlenT : (((chunks bs (titlesOf ps)).map encode).flatten).length = ps.length := by
    rw [emb_len encode hlen hbs]; simp [titlesOf]
  have hlenD : (((chunks bs (descriptionsOf ps)).map encode).flatten).length = ps.length := by
    rw [emb_len encode hlen hbs]; simp [descriptionsOf]
  have hlenC : (((chunks bs (combinedsOf ps)).map encode).flatten).length = ps.length := by
    rw [emb_len encode hlen hbs]; simp [combinedsOf]
  rcases hxl with rfl | rfl | rfl | hfalse
  · have hvL : v ∈ ((chunks bs (titlesOf ps)).map encode).flatten :=
      List.mem_flatten.mpr ⟨encode trip.1, List.mem_map_of_mem _ ht1, hv⟩
    obtain ⟨i, hi, hg⟩ := List.mem_iff_getElem.mp hvL
    have hip : i < ps.length := hlenT ▸ hi
    have hiout : i < (ps.enum.map (fun ip =>
        ({ toProduct := ip.2
           title_embedding :=
             (((chunks bs (titlesOf ps)).map encode).flatten).getD ip.1 []
           description_embedding :=
             (((chunks bs (descriptionsOf ps)).map encode).flatten).getD ip.1 []
           combined_embedding :=
             (((chunks bs (combinedsOf ps)).map encode).flatten).getD ip.1 [] }
          : EmbeddedProduct))).length := by
      simpa using hip
    have hdims := List.all_eq_true.mp hall _ (List.getElem_mem hiout)
    simp only [List.getElem_map, List.getElem_enum, hasDims, Bool.and_eq_true,
      beq_iff_eq] at hdims
    apply hvlen
    rw [← hdims.1.1]
    rw [List.getD_eq_getElem _ _ hi, hg]
  · have hvL : v ∈ ((chunks bs (descriptionsOf ps)).map encode).flatten :=
      List.mem_flatten.mpr ⟨encode trip.2.1, List.mem_map_of_mem _ ht2, hv⟩
    obtain ⟨i, hi, hg⟩ := List.mem_iff_getElem.mp hvL
    have hip : i < ps.length := hlenD ▸ hi
    have hiout : i < (ps.enum.map (fun ip =>
        ({ toProduct := ip.2
           title_embedding :=
             (((chunks bs (titlesOf ps)).map encode).flatten).getD ip.1 []
           description_embedding :=
             (((chunks bs (descriptionsOf ps)).map encode).flatten).getD ip.1 []
           combined_embedding :=
             (((chunks bs (combinedsOf ps)).map encode).flatten).getD ip.1 [] }
          : EmbeddedProduct))).length := by
      simpa using hip
    have hdims := List.all_eq_true.mp hall _ (List.getElem_mem hiout)
    simp only [List.getElem_map, List.getElem_enum, hasDims, Bool.and_eq_true,
      beq_iff_eq] at hdims
    apply hvlen
    rw [← hdims.1.2]
    rw [List.getD_eq_getElem _ _ hi, hg]
  · have hvL : v ∈ ((chunks bs (combinedsOf ps)).map encode).flatten :=
      List.mem_flatten.mpr ⟨encode trip.2.2, List.mem_map_of_mem _ ht3, hv⟩
    obtain ⟨i, hi, hg⟩ := List.mem_iff_getElem.mp hvL
    have hip : i < ps.length := hlenC ▸ hi
    have hiout : i < (ps.enum.map (fun ip =>
        ({ toProduct := ip.2
           title_embedding :=
             (((chunks bs (titlesOf ps)).map encode).flatten).getD ip.1 []
           description_embedding :=
             (((chunks bs (descriptionsOf ps)).map encode).flatten).getD ip.1 []
           combined_embedding :=
             (((chunks bs (combinedsOf ps)).map encode).flatten).getD ip.1 [] }
          : EmbeddedProduct))).length := by
      simpa using hip
    have hdims := List.all_eq_true.mp hall _ (List.getElem_mem hiout)
    simp only [List.getElem_map, List.getElem_enum, hasDims, Bool.and_eq_true,
      beq_iff_eq] at hdims
    apply hvlen
    rw [← hdims.2]
    rw [List.getD_eq_getElem _ _ hi, hg]
  · cases hfalse

/-- C5: if the embedding function (one vector per input text) returns,
on any of the vectorization calls the pipeline issues, a vector whose
length differs from the configured dimensionality (384), the run
terminates with an error and the store is unchanged — no record of the
run is persisted; and in every run, any record present in the final store
was either already there or has all three vectors of length 384. -/
theorem dimension_mismatch_aborts :
    ∀ env st,
      ((∀ xs, (env.encode xs).length = xs.length) →
        (∃ xs ∈ embedCalls MODEL_CONFIG.batch_size (parse_amazon_data env.rows),
          ∃ v ∈ env.encode xs, v.length ≠ MODEL_CONFIG.embedding_dimension) →
        (∃ e, (run_pipeline env st).2 = .error e) ∧
        (run_pipeline env st).1.store = st.store) ∧
      (∀ k p, (run_pipeline env st).1.store k = some p →
        st.store k = some p ∨ hasDims p = true) := by
  intro env st
  constructor
  · intro hlen hex
    obtain ⟨xs, hxs, v, hv, hvlen⟩ := hex
    by_cases hconn : env.connOk = false
    · simp [run_pipeline, hconn]
    · have hconn' : env.connOk = true := by
        revert hconn; cases env.connOk <;> simp
      by_cases hdl : env.downloadOk = false
      · simp [run_pipeline, hconn', hdl]
      · have hdl' : env.downloadOk = true := by
          revert hdl; cases env.downloadOk <;> simp
        by_cases hemp : (parse_amazon_data env.rows).isEmpty
        · simp [run_pipeline, hconn', hdl', hemp]
        · have hemp' : (parse_amazon_data env.rows).isEmpty = false := by
            revert hemp; cases (parse_amazon_data env.rows).isEmpty <;> simp
          have hbs : 0 < MODEL_CONFIG.batch_size := by decide
          have hgen := generate_embeddings_ok env.encode MODEL_CONFIG.batch_size
            (parse_amazon_data env.rows) hbs hlen
          have hall := bad_vector_not_all env.encode hlen MODEL_CONFIG.batch_size
            hbs (parse_amazon_data env.rows) xs hxs v hv hvlen
          simp only [run_pipeline, hconn', hdl', hemp', Bool.not_true,
            Bool.false_eq_true, if_false, hgen]
          unfold insert_products
          rw [if_neg (by rw [hall]; exact Bool.false_ne_true)]
          exact ⟨⟨.insertFailed, rfl⟩, rfl⟩
  · intro k p h
    simp only [run_pipeline] at h
    repeat' split at h
    all_goals try exact Or.inl h
    rename_i s1 hins
    · unfold insert_products at hins
      split at hins
      · next hall =>
        cases hins
        dsimp only at h
        rw [foldl_upsert_lookup] at h
        split at h
        · next q hf =>
          cases h
          refine Or.inr ?_
          have hq := List.mem_of_find?_eq_some hf
          rw [List.mem_reverse] at hq
          exact List.all_eq_true.mp hall _ hq
        · exact Or.inl h
      · cases hins

/-- C5 witness: the theorem applied to a run whose embedding function
returns 1-dimensional vectors. -/
theorem dimension_mismatch_aborts_witness :
    (∃ e, (run_pipeline envBadDims initState).2 = .error e) ∧
    (run_pipeline envBadDims initState).1.store = initState.store :=
  (dimension_mismatch_aborts envBadDims initState).1
    (fun xs => by simp [envBadDims, encodeConst])
    ⟨["Wireless Mouse"], by decide, [0], by decide, by decide⟩

/-- C9: a failing connectivity check aborts the run before any side
effect — schema creation, download and the store are untouched — and a
run whose normalization stage produces zero valid records terminates with
the fatal `noValidProducts` error rather than completing as a silent
no-op. -/
theorem pipeline_gating :
    ∀ env st,
      (env.connOk = false →
        run_pipeline env st = (st, .error .connectionFailed)) ∧
      (env.connOk = true → env.downloadOk = true →
        parse_amazon_data env.rows = [] →
        run_pipeline env st =
          ({ st with tablesCreated := true, downloaded := true },
            .error .noValidProducts)) := by
  intro env st
  constructor
  · intro h
    simp [run_pipeline, h]
  · intro hc hd hp
    simp [run_pipeline, hc, hd, hp]

/-- C9 witness: the gating theorem applied to a concrete run with a
failing probe and to a concrete run with an empty dataset. -/
theorem pipeline_gating_witness :
    run_pipeline envNoConn initState = (initState, .error .connectionFailed) ∧
    run_pipeline envNoRows initState =
      ({ initState with tablesCreated := true, downloaded := true },
        .error .noValidProducts) :=
  ⟨(pipeline_gating envNoConn initState).1 rfl,
    (pipeline_gating envNoRows initState).2 rfl rfl rfl⟩
